import Mathlib

/-!
Verification development for the exact-inference core of the pasp repository.

The repository ships the header cexact.h (storage types and contracts for
exact_enum, count_models, prob_obs, prob_obs_reuse) together with the
marshaling module cprogram.c and the interface header cprogram.h.  The C
implementation behind cexact.h is not part of the sources, so the
enumeration and accumulation routines are modelled from the specification
text, while the marshaling routines are embedded directly from cprogram.c.
-/

/-! ## Program model and total-choice enumeration -/

/-- Modelled from the spec: the probabilistic structure of a `program_t`
(the implementation file behind cexact.h is missing).  `pfProbs` lists the
probability of each probabilistic fact, in declaration order; `adProbs`
lists the joint distribution of each annotated-disjunction group. -/
structure ModProgram where
  pfProbs : List ℚ
  adProbs : List (List ℚ)

/-- Modelled from the spec: every choice dimension as a probability table.
A probabilistic fact with probability p is the two-valued table [1-p, p];
an annotated disjunction contributes its own distribution. -/
def dims (P : ModProgram) : List (List ℚ) :=
  P.pfProbs.map (fun p => [1 - p, p]) ++ P.adProbs

/-- Modelled from the spec: the radix of each choice dimension (2 for a
probabilistic fact, k for an AD group over k values). -/
def radices (P : ModProgram) : List ℕ :=
  (dims P).map List.length

/-- Modelled from the spec: the total-choice enumerator (missing from the
sources).  Mixed-radix odometer enumeration: the first-listed dimension is
the slowest-varying one, so the last dimension varies fastest. -/
def choices : List ℕ → List (List ℕ)
  | [] => [[]]
  | r :: rs => (List.range r).flatMap (fun v => (choices rs).map (fun θ => v :: θ))

/-- Modelled from the spec: the probability mass of one total choice, the
product of the probabilities of the chosen value in every dimension. -/
def weight (ds : List (List ℚ)) (θ : List ℕ) : ℚ :=
  (List.zipWith (fun dist d => dist.getD d 0) ds θ).prod

theorem choices_length (rs : List ℕ) : (choices rs).length = rs.prod := by
  induction rs with
  | nil => rfl
  | cons r rs ih =>
    simp only [choices, List.length_flatMap, Function.comp_def, List.length_map, ih]
    rw [List.map_const', List.sum_replicate, smul_eq_mul, List.length_range, List.prod_cons]

theorem choices_nodup (rs : List ℕ) : (choices rs).Nodup := by
  induction rs with
  | nil => simp [choices]
  | cons r rs ih =>
    rw [choices, List.nodup_flatMap]
    constructor
    · intro v _
      exact ih.map (fun a b h => by injection h)
    · refine (List.nodup_range r).pairwise_of_forall_ne (fun a _ b _ hab => ?_)
      simp only [List.Disjoint]
      intro θ hθa hθb
      obtain ⟨x, _, hx⟩ := List.mem_map.mp hθa
      obtain ⟨y, _, hy⟩ := List.mem_map.mp hθb
      rw [← hx] at hy
      injection hy with h1 _
      exact hab h1.symm

theorem radices_eq (P : ModProgram) :
    radices P = List.replicate P.pfProbs.length 2 ++ P.adProbs.map List.length := by
  simp only [radices, dims, List.map_append, List.map_map, Function.comp_def, List.length_cons,
    List.length_nil]
  rw [List.map_const']

/-- C2: the enumerator produces exactly 2^n × Π k_i total choices, each unique,
and a program with zero probabilistic dimensions yields exactly one empty total
choice whose probability mass is 1. -/
theorem c2_total_choice_count (P : ModProgram) :
    (choices (radices P)).length = 2 ^ P.pfProbs.length * (P.adProbs.map List.length).prod
    ∧ (choices (radices P)).Nodup
    ∧ (P.pfProbs = [] → P.adProbs = [] →
        choices (radices P) = [[]] ∧ weight (dims P) [] = 1) := by
  refine ⟨?_, choices_nodup _, ?_⟩
  · rw [choices_length, radices_eq, List.prod_append, List.prod_replicate]
  · intro h1 h2
    obtain ⟨pf, ad⟩ := P
    simp only at h1 h2
    subst h1; subst h2
    exact ⟨rfl, rfl⟩

theorem c2_total_choice_count_witness :
    choices (radices ⟨[], []⟩) = [[]] ∧ weight (dims ⟨[], []⟩) [] = 1 :=
  (c2_total_choice_count ⟨[], []⟩).2.2 rfl rfl

/-! ## Exact enumeration (modelled from the spec; the cexact implementation
file is not among the sources, only its header cexact.h) -/

/-- Modelled from the spec: one pass over a list of total choices, calling the
external solver oracle on each; a grounding/solving failure (`none`) aborts the
whole run with no partial result, and no retry occurs (each choice is consulted
at most once, in order). -/
def solveFold {σ : Type} (count : List ℕ → Option ℕ) (f : σ → List ℕ → ℕ → σ)
    (s : σ) : List (List ℕ) → Option σ
  | [] => some s
  | θ :: l =>
    match count θ with
    | none => none
    | some c => solveFold count f (f s θ c) l

/-- Modelled from the spec: `exact_enum` under max-entropy semantics (the
implementation behind cexact.h line 27 is missing).  For every total choice the
solver model count is weighted by the choice probability mass and added to each
satisfied query's accumulator and to the total mass; the final per-query
probability divides by the accumulated total. -/
def exact_enum {α : Type} (P : ModProgram) (count : List ℕ → Option ℕ)
    (sat : List ℕ → α → Bool) (qs : List α) : Option (List ℚ) :=
  match solveFold count
      (fun s θ c =>
        (List.zipWith (fun x q => x + weight (dims P) θ * c * (if sat θ q then 1 else 0)) s.1 qs,
         s.2 + weight (dims P) θ * c))
      (qs.map (fun _ => (0 : ℚ)), (0 : ℚ)) (choices (radices P)) with
  | none => none
  | some st => some (st.1.map (fun x => x / st.2))

/-- Sum, over all total choices, of weight × model count × [query satisfied]. -/
def querySumNum {α : Type} (P : ModProgram) (c : List ℕ → ℕ)
    (sat : List ℕ → α → Bool) (q : α) : ℚ :=
  ((choices (radices P)).map
    (fun θ => weight (dims P) θ * c θ * (if sat θ q then 1 else 0))).sum

/-- Total weighted model count over all total choices. -/
def totalMass (P : ModProgram) (c : List ℕ → ℕ) : ℚ :=
  ((choices (radices P)).map (fun θ => weight (dims P) θ * c θ)).sum

theorem zipWith_acc_comp {α β : Type} (f g : β → α → β) (l : List β) (l2 : List α) :
    List.zipWith f (List.zipWith g l l2) l2 = List.zipWith (fun x q => f (g x q) q) l l2 := by
  induction l generalizing l2 with
  | nil => simp
  | cons x xs ih =>
    cases l2 with
    | nil => simp
    | cons q qs => simp [ih]

theorem zipWith_left_id {α β : Type} (l : List β) (l2 : List α) (h : l.length = l2.length) :
    List.zipWith (fun x _ => x) l l2 = l := by
  induction l generalizing l2 with
  | nil => simp
  | cons x xs ih =>
    cases l2 with
    | nil => simp at h
    | cons q qs =>
      simp only [List.length_cons, Nat.succ.injEq] at h
      simp [ih qs h]

theorem solveFold_sum {α : Type} (ds : List (List ℚ)) (c : List ℕ → ℕ)
    (sat : List ℕ → α → Bool) (qs : List α) (l : List (List ℕ)) :
    ∀ (a : List ℚ) (t : ℚ), a.length = qs.length →
      solveFold (fun θ => some (c θ))
        (fun s θ cc =>
          (List.zipWith (fun x q => x + weight ds θ * cc * (if sat θ q then 1 else 0)) s.1 qs,
           s.2 + weight ds θ * cc))
        (a, t) l
      = some
        (List.zipWith
          (fun x q => x + ((l.map
            (fun θ => weight ds θ * c θ * (if sat θ q then 1 else 0))).sum)) a qs,
         t + (l.map (fun θ => weight ds θ * c θ)).sum) := by
  induction l with
  | nil =>
    intro a t h
    simp [solveFold, zipWith_left_id a qs h]
  | cons θ l ih =>
    intro a t h
    rw [solveFold]
    simp only
    rw [ih _ _ (by rw [List.length_zipWith, h, Nat.min_self]),
      zipWith_acc_comp]
    simp only [List.map_cons, List.sum_cons, add_assoc]

/-- C1: under max-entropy semantics `exact_enum` returns, for each query, the
sum over all total choices of weight × model count × [query satisfied], divided
by the total weighted model count over all total choices; and for the program
with the single probabilistic fact a with p = 0.3, rule a., and query
Q = \x7ba : true\x7d with empty evidence, the returned probability is 0.3. -/
theorem c1_exact_enum_maxent :
    (∀ (α : Type) (P : ModProgram) (c : List ℕ → ℕ) (sat : List ℕ → α → Bool) (qs : List α),
        exact_enum P (fun θ => some (c θ)) sat qs
          = some (qs.map (fun q => querySumNum P c sat q / totalMass P c)))
    ∧ exact_enum ⟨[3/10], []⟩ (fun _ => some 1)
        (fun θ _ => θ.getD 0 0 == 1) [()] = some [3/10] := by
  constructor
  · intro α P c sat qs
    rw [exact_enum, solveFold_sum (dims P) c sat qs _ _ _ (List.length_map _ _)]
    simp only [List.zipWith_map_left, zero_add, List.zipWith_same, List.map_map]
    rfl
  · show exact_enum ⟨[3/10], []⟩ (fun _ => some 1) (fun θ _ => θ.getD 0 0 == 1) [()]
      = some [3/10]
    simp only [exact_enum, radices, dims, choices, weight, List.map_nil, List.append_nil,
      List.map_cons, List.length_cons, List.length_nil, List.range, List.range.loop,
      List.flatMap_cons, List.flatMap_nil, List.nil_append, List.zipWith_cons_cons,
      List.zipWith_nil_right, List.zipWith_nil_left, List.getD, solveFold]
    norm_num [List.getD]

/-! ## Model counting with uint16 buckets (count_storage_t of cexact.h) -/

/-- Addition into a uint16_t counter: wraps modulo 2^16 (cexact.h declares the
model-count buckets F, A and N as uint16_t). -/
def u16add (a c : ℕ) : ℕ := (a + c) % 65536

/-- Modelled from the spec: the per-fact bucket accumulation of count_models
(the implementation behind cexact.h line 29 is missing).  Every total choice's
model count is added to the bucket selected by the truth value the learnable
fact at dimension iF takes in that choice; the buckets are uint16_t. -/
def accumCountF (c : List ℕ → ℕ) (iF : ℕ) (l : List (List ℕ)) : ℕ × ℕ :=
  l.foldl (fun s θ =>
    if θ.getD iF 0 = 1 then (s.1, u16add s.2 (c θ)) else (u16add s.1 (c θ), s.2)) (0, 0)

/-- Modelled from the spec: the per-AD-value bucket accumulation (A buckets of
count_storage_t): the model count is added when the dimension at index i took
value v in the total choice. -/
def accumCountVal (c : List ℕ → ℕ) (i v : ℕ) (l : List (List ℕ)) : ℕ :=
  l.foldl (fun s θ => if θ.getD i 0 = v then u16add s (c θ) else s) 0

/-- Modelled from the spec: count_models enumerates all total choices once,
querying the solver oracle on each; a failure aborts the call; otherwise every
learnable fact listed in I_F gets its pair of uint16 truth buckets. -/
def count_models (P : ModProgram) (count : List ℕ → Option ℕ) (I_F : List ℕ) :
    Option (List (ℕ × ℕ)) :=
  solveFold count
    (fun s θ c =>
      List.zipWith
        (fun p iF => if θ.getD iF 0 = 1 then (p.1, u16add p.2 c) else (u16add p.1 c, p.2))
        s I_F)
    (I_F.map (fun _ => (0, 0))) (choices (radices P))

/-- Exact (unbounded) sum of model counts over the choices where dimension iF
took the value 1. -/
def bucketTrue (c : List ℕ → ℕ) (iF : ℕ) (l : List (List ℕ)) : ℕ :=
  ((l.filter (fun θ => θ.getD iF 0 == 1)).map c).sum

/-- Exact (unbounded) sum of model counts over the choices where dimension iF
did not take the value 1. -/
def bucketFalse (c : List ℕ → ℕ) (iF : ℕ) (l : List (List ℕ)) : ℕ :=
  ((l.filter (fun θ => !(θ.getD iF 0 == 1))).map c).sum

/-- Exact sum of model counts over the choices where dimension i took value v. -/
def bucketVal (c : List ℕ → ℕ) (i v : ℕ) (l : List (List ℕ)) : ℕ :=
  ((l.filter (fun θ => θ.getD i 0 == v)).map c).sum

/-- Total model count over a list of total choices. -/
def totalModels (c : List ℕ → ℕ) (l : List (List ℕ)) : ℕ :=
  (l.map c).sum

theorem solveFold_total {σ : Type} (c : List ℕ → ℕ) (f : σ → List ℕ → ℕ → σ)
    (l : List (List ℕ)) : ∀ s : σ,
    solveFold (fun θ => some (c θ)) f s l = some (l.foldl (fun s θ => f s θ (c θ)) s) := by
  induction l with
  | nil => intro s; rfl
  | cons θ l ih => intro s; rw [solveFold]; exact ih _

theorem solveFold_none {σ : Type} (count : List ℕ → Option ℕ) (f : σ → List ℕ → ℕ → σ)
    (l : List (List ℕ)) (h : ∃ θ ∈ l, count θ = none) : ∀ s : σ,
    solveFold count f s l = none := by
  induction l with
  | nil => simp at h
  | cons θ l ih =>
    intro s
    rw [solveFold]
    obtain ⟨θ', hmem, hnone⟩ := h
    rcases List.mem_cons.mp hmem with h1 | h1
    · subst h1
      rw [hnone]
    · cases hc : count θ with
      | none => rfl
      | some cc => exact ih ⟨θ', h1, hnone⟩ _

theorem bucketFalse_cons (c : List ℕ → ℕ) (iF : ℕ) (θ : List ℕ) (l : List (List ℕ)) :
    bucketFalse c iF (θ :: l)
      = (if θ.getD iF 0 = 1 then 0 else c θ) + bucketFalse c iF l := by
  by_cases hθ : θ.getD iF 0 = 1
  · rw [if_pos hθ, bucketFalse, List.filter_cons, hθ, if_neg (by decide), Nat.zero_add]
    rfl
  · rw [if_neg hθ, bucketFalse, List.filter_cons,
      if_pos (by simp only [Bool.not_eq_true', beq_eq_false_iff_ne, ne_eq]; exact hθ),
      List.map_cons, List.sum_cons]
    rfl

theorem bucketTrue_cons (c : List ℕ → ℕ) (iF : ℕ) (θ : List ℕ) (l : List (List ℕ)) :
    bucketTrue c iF (θ :: l)
      = (if θ.getD iF 0 = 1 then c θ else 0) + bucketTrue c iF l := by
  by_cases hθ : θ.getD iF 0 = 1
  · rw [if_pos hθ, bucketTrue, List.filter_cons, hθ, if_pos (by decide),
      List.map_cons, List.sum_cons]
    rfl
  · rw [if_neg hθ, bucketTrue, List.filter_cons,
      if_neg (by simp only [beq_iff_eq]; exact hθ), Nat.zero_add]
    rfl

theorem totalModels_cons (c : List ℕ → ℕ) (θ : List ℕ) (l : List (List ℕ)) :
    totalModels c (θ :: l) = c θ + totalModels c l := by
  rw [totalModels, List.map_cons, List.sum_cons]
  rfl

theorem accumCountF_from (c : List ℕ → ℕ) (iF : ℕ) (l : List (List ℕ)) :
    ∀ a b : ℕ, a < 65536 → b < 65536 →
      l.foldl (fun s θ =>
          if θ.getD iF 0 = 1 then (s.1, u16add s.2 (c θ)) else (u16add s.1 (c θ), s.2)) (a, b)
        = ((a + bucketFalse c iF l) % 65536, (b + bucketTrue c iF l) % 65536) := by
  induction l with
  | nil =>
    intro a b ha hb
    simp [bucketFalse, bucketTrue, Nat.mod_eq_of_lt ha, Nat.mod_eq_of_lt hb]
  | cons θ l ih =>
    intro a b ha hb
    rw [List.foldl_cons, bucketFalse_cons, bucketTrue_cons]
    by_cases hθ : θ.getD iF 0 = 1
    · simp only [if_pos hθ]
      rw [ih a (u16add b (c θ)) ha (Nat.mod_lt _ (by norm_num))]
      rw [u16add, Nat.mod_add_mod, Nat.zero_add, Nat.add_assoc]
    · simp only [if_neg hθ]
      rw [ih (u16add a (c θ)) b (Nat.mod_lt _ (by norm_num)) hb]
      rw [u16add, Nat.mod_add_mod, Nat.zero_add, Nat.add_assoc]

theorem accumCountF_eq (c : List ℕ → ℕ) (iF : ℕ) (l : List (List ℕ)) :
    accumCountF c iF l = (bucketFalse c iF l % 65536, bucketTrue c iF l % 65536) := by
  rw [accumCountF, accumCountF_from c iF l 0 0 (by norm_num) (by norm_num)]
  simp

theorem buckets_partition (c : List ℕ → ℕ) (iF : ℕ) (l : List (List ℕ)) :
    bucketFalse c iF l + bucketTrue c iF l = totalModels c l := by
  induction l with
  | nil => rfl
  | cons θ l ih =>
    rw [bucketFalse_cons, bucketTrue_cons, totalModels_cons]
    by_cases hθ : θ.getD iF 0 = 1
    · rw [if_pos hθ, if_pos hθ]
      omega
    · rw [if_neg hθ, if_neg hθ]
      omega

theorem foldl_zipWith_buckets (c : List ℕ → ℕ) (l : List (List ℕ)) :
    ∀ (I_F : List ℕ) (s : List (ℕ × ℕ)), s.length = I_F.length →
      l.foldl (fun s θ =>
          List.zipWith
            (fun p iF => if θ.getD iF 0 = 1 then (p.1, u16add p.2 (c θ))
              else (u16add p.1 (c θ), p.2)) s I_F) s
        = List.zipWith
            (fun p iF => l.foldl
              (fun p θ => if θ.getD iF 0 = 1 then (p.1, u16add p.2 (c θ))
                else (u16add p.1 (c θ), p.2)) p) s I_F := by
  induction l with
  | nil =>
    intro I_F s h
    exact (zipWith_left_id s I_F h).symm
  | cons θ l ih =>
    intro I_F s h
    rw [List.foldl_cons, ih I_F _ (by rw [List.length_zipWith, h, Nat.min_self]),
      zipWith_acc_comp]
    rfl

theorem count_models_eq (P : ModProgram) (c : List ℕ → ℕ) (I_F : List ℕ) :
    count_models P (fun θ => some (c θ)) I_F
      = some (I_F.map (fun iF => accumCountF c iF (choices (radices P)))) := by
  rw [count_models, solveFold_total,
    foldl_zipWith_buckets c _ I_F _ (List.length_map _ _), List.zipWith_map_left,
    List.zipWith_same]
  rfl

theorem bucketVal_cons (c : List ℕ → ℕ) (i v : ℕ) (θ : List ℕ) (l : List (List ℕ)) :
    bucketVal c i v (θ :: l)
      = (if θ.getD i 0 = v then c θ else 0) + bucketVal c i v l := by
  by_cases hθ : θ.getD i 0 = v
  · rw [if_pos hθ, bucketVal, List.filter_cons, hθ,
      if_pos (by simp only [beq_self_eq_true]), List.map_cons, List.sum_cons]
    rfl
  · rw [if_neg hθ, bucketVal, List.filter_cons,
      if_neg (by simp only [beq_iff_eq]; exact hθ), Nat.zero_add]
    rfl

theorem accumCountVal_from (c : List ℕ → ℕ) (i v : ℕ) (l : List (List ℕ)) :
    ∀ a : ℕ, a < 65536 →
      l.foldl (fun s θ => if θ.getD i 0 = v then u16add s (c θ) else s) a
        = (a + bucketVal c i v l) % 65536 := by
  induction l with
  | nil =>
    intro a ha
    simp [bucketVal, Nat.mod_eq_of_lt ha]
  | cons θ l ih =>
    intro a ha
    rw [List.foldl_cons, bucketVal_cons]
    by_cases hθ : θ.getD i 0 = v
    · rw [if_pos hθ, if_pos hθ, ih (u16add a (c θ)) (Nat.mod_lt _ (by norm_num)), u16add,
        Nat.mod_add_mod, Nat.add_assoc]
    · rw [if_neg hθ, if_neg hθ, ih a ha, Nat.zero_add]

theorem accumCountVal_eq (c : List ℕ → ℕ) (i v : ℕ) (l : List (List ℕ)) :
    accumCountVal c i v l = bucketVal c i v l % 65536 := by
  rw [accumCountVal, accumCountVal_from c i v l 0 (by norm_num), Nat.zero_add]

/-! ## Observation probability (prob_obs of cexact.h, modelled from the spec) -/

/-- Joint probability mass of the observation: sum of weight × model count over
the total choices consistent with the observation. -/
def obsMass (P : ModProgram) (c : List ℕ → ℕ) (obsSat : List ℕ → Bool)
    (l : List (List ℕ)) : ℚ :=
  ((l.filter obsSat).map (fun θ => weight (dims P) θ * c θ)).sum

/-- Exact (unbounded) count of models consistent with the observation. -/
def obsCount (c : List ℕ → ℕ) (obsSat : List ℕ → Bool) (l : List (List ℕ)) : ℕ :=
  ((l.filter obsSat).map c).sum

/-- Modelled from the spec: prob_obs (the implementation behind cexact.h line 86
is missing).  Enumerates all total choices once; on the choices consistent with
the observation it adds the model count to the uint16 counter N and the
weighted mass to the probability o; a solver failure aborts the whole call. -/
def prob_obs (P : ModProgram) (count : List ℕ → Option ℕ) (obsSat : List ℕ → Bool) :
    Option (ℕ × ℚ) :=
  solveFold count
    (fun s θ c => if obsSat θ then (u16add s.1 c, s.2 + weight (dims P) θ * c) else s)
    (0, 0) (choices (radices P))

theorem obsCount_cons (c : List ℕ → ℕ) (obsSat : List ℕ → Bool) (θ : List ℕ)
    (l : List (List ℕ)) :
    obsCount c obsSat (θ :: l) = (if obsSat θ then c θ else 0) + obsCount c obsSat l := by
  cases hb : obsSat θ with
  | true =>
    rw [if_pos rfl, obsCount, List.filter_cons, hb, if_pos rfl, List.map_cons, List.sum_cons]
    rfl
  | false =>
    rw [if_neg (by simp), obsCount, List.filter_cons, hb, if_neg (by simp), Nat.zero_add]
    rfl

theorem obsMass_cons (P : ModProgram) (c : List ℕ → ℕ) (obsSat : List ℕ → Bool)
    (θ : List ℕ) (l : List (List ℕ)) :
    obsMass P c obsSat (θ :: l)
      = (if obsSat θ then weight (dims P) θ * c θ else 0) + obsMass P c obsSat l := by
  cases hb : obsSat θ with
  | true =>
    rw [if_pos rfl, obsMass, List.filter_cons, hb, if_pos rfl, List.map_cons, List.sum_cons]
    rfl
  | false =>
    rw [if_neg (by simp), obsMass, List.filter_cons, hb, if_neg (by simp), zero_add]
    rfl

theorem prob_obs_from (P : ModProgram) (c : List ℕ → ℕ) (obsSat : List ℕ → Bool)
    (l : List (List ℕ)) :
    ∀ (n : ℕ) (q : ℚ), n < 65536 →
      l.foldl (fun s θ =>
          if obsSat θ then (u16add s.1 (c θ), s.2 + weight (dims P) θ * c θ) else s) (n, q)
        = ((n + obsCount c obsSat l) % 65536, q + obsMass P c obsSat l) := by
  induction l with
  | nil =>
    intro n q hn
    simp [obsCount, obsMass, Nat.mod_eq_of_lt hn]
  | cons θ l ih =>
    intro n q hn
    rw [List.foldl_cons, obsCount_cons, obsMass_cons P]
    cases hb : obsSat θ with
    | true =>
      rw [if_pos rfl, if_pos rfl, if_pos rfl]
      dsimp only
      rw [ih (u16add n (c θ)) (q + weight (dims P) θ * c θ) (Nat.mod_lt _ (by norm_num)),
        u16add, Nat.mod_add_mod, Nat.add_assoc, add_assoc]
    | false =>
      rw [if_neg (by simp), if_neg (by simp), if_neg (by simp)]
      rw [ih n q hn, Nat.zero_add, zero_add]

theorem prob_obs_eq (P : ModProgram) (c : List ℕ → ℕ) (obsSat : List ℕ → Bool) :
    prob_obs P (fun θ => some (c θ)) obsSat
      = some (obsCount c obsSat (choices (radices P)) % 65536,
              obsMass P c obsSat (choices (radices P))) := by
  rw [prob_obs, solveFold_total, prob_obs_from P c obsSat _ 0 0 (by norm_num), Nat.zero_add,
    zero_add]

/-- C3 counterexample: with one learnable probabilistic fact, model count 65536
on the choice where it is false and 1 where it is true, count_models stores the
buckets (0, 1), so F[0] + F[1] = 1 while the sum of model counts over all total
choices is 65537: the uint16_t buckets of count_storage_t wrap modulo 2^16. -/
theorem c3_bucket_conservation_counterexample :
    count_models ⟨[1/2], []⟩
        (fun θ => some (if θ.getD 0 0 = 1 then 1 else 65536)) [0] = some [(0, 1)]
    ∧ totalModels (fun θ => if θ.getD 0 0 = 1 then 1 else 65536)
        (choices (radices ⟨[1/2], []⟩)) = 65537
    ∧ (0 + 1 : ℕ) ≠ 65537 :=
  ⟨by decide, by decide, by decide⟩

/-- C3 amended: for every learnable probabilistic fact, the two buckets stored
by count_models are the exact per-truth-value model-count sums reduced modulo
2^16, so F[0] + F[1] equals the total model count over all total choices
modulo 2^16, with exact equality whenever that total is below 2^16. -/
theorem c3_bucket_conservation (P : ModProgram) (c : List ℕ → ℕ) (iF : ℕ) :
    count_models P (fun θ => some (c θ)) [iF]
      = some [(bucketFalse c iF (choices (radices P)) % 65536,
               bucketTrue c iF (choices (radices P)) % 65536)]
    ∧ ((accumCountF c iF (choices (radices P))).1
        + (accumCountF c iF (choices (radices P))).2) % 65536
        = totalModels c (choices (radices P)) % 65536
    ∧ (totalModels c (choices (radices P)) < 65536 →
        (accumCountF c iF (choices (radices P))).1
          + (accumCountF c iF (choices (radices P))).2
          = totalModels c (choices (radices P))) := by
  have hpart := buckets_partition c iF (choices (radices P))
  refine ⟨?_, ?_, ?_⟩
  · rw [count_models_eq, List.map_cons, List.map_nil, accumCountF_eq]
  · rw [accumCountF_eq]
    dsimp only
    rw [← Nat.add_mod, hpart]
  · intro hlt
    rw [accumCountF_eq]
    dsimp only
    rw [Nat.mod_eq_of_lt (by omega), Nat.mod_eq_of_lt (by omega), hpart]

theorem c3_bucket_conservation_witness :
    totalModels (fun _ => 1) (choices (radices ⟨[1/2], []⟩)) < 65536
    ∧ (accumCountF (fun _ => 1) 0 (choices (radices ⟨[1/2], []⟩))).1
        + (accumCountF (fun _ => 1) 0 (choices (radices ⟨[1/2], []⟩))).2
        = totalModels (fun _ => 1) (choices (radices ⟨[1/2], []⟩)) :=
  ⟨by decide, (c3_bucket_conservation ⟨[1/2], []⟩ (fun _ => 1) 0).2.2 (by decide)⟩

/-- C5: if grounding or solving fails for any individual total choice, then
exact_enum, count_models and prob_obs all abort the entire inference call and
report failure, returning no partial result; the single pass of solveFold
consults each choice at most once, so no retry occurs. -/
theorem c5_solver_failure_aborts (α : Type) (P : ModProgram)
    (count : List ℕ → Option ℕ) (sat : List ℕ → α → Bool) (qs : List α)
    (I_F : List ℕ) (obsSat : List ℕ → Bool)
    (h : ∃ θ ∈ choices (radices P), count θ = none) :
    exact_enum P count sat qs = none
    ∧ count_models P count I_F = none
    ∧ prob_obs P count obsSat = none := by
  refine ⟨?_, ?_, ?_⟩
  · rw [exact_enum, solveFold_none count _ _ h]
  · rw [count_models, solveFold_none count _ _ h]
  · rw [prob_obs, solveFold_none count _ _ h]

theorem c5_solver_failure_aborts_witness :
    (∃ θ ∈ choices (radices ⟨[1/2], []⟩),
      (fun θ => if θ.getD 0 0 = 1 then (none : Option ℕ) else some 1) θ = none)
    ∧ (exact_enum ⟨[1/2], []⟩
          (fun θ => if θ.getD 0 0 = 1 then (none : Option ℕ) else some 1)
          (fun _ (_ : Unit) => true) [] = none
      ∧ count_models ⟨[1/2], []⟩
          (fun θ => if θ.getD 0 0 = 1 then (none : Option ℕ) else some 1) [0] = none
      ∧ prob_obs ⟨[1/2], []⟩
          (fun θ => if θ.getD 0 0 = 1 then (none : Option ℕ) else some 1)
          (fun _ => true) = none) :=
  ⟨by decide,
   c5_solver_failure_aborts Unit ⟨[1/2], []⟩
     (fun θ => if θ.getD 0 0 = 1 then (none : Option ℕ) else some 1)
     (fun _ _ => true) [] [0] (fun _ => true) (by decide)⟩

/-- C10: the per-fact buckets F, the per-AD-value buckets A and the
per-observation counter N are uint16_t accumulators, so whenever the exact
count for a bucket reaches 2^16 the stored count is the exact count reduced
modulo 2^16, and differs from the exact count. -/
theorem c10_uint16_wraparound (P : ModProgram) (c : List ℕ → ℕ) (iF i v : ℕ)
    (obsSat : List ℕ → Bool)
    (hF : 65536 ≤ bucketTrue c iF (choices (radices P)))
    (hA : 65536 ≤ bucketVal c i v (choices (radices P)))
    (hN : 65536 ≤ obsCount c obsSat (choices (radices P))) :
    ((accumCountF c iF (choices (radices P))).2
        = bucketTrue c iF (choices (radices P)) % 65536
      ∧ (accumCountF c iF (choices (radices P))).2
        ≠ bucketTrue c iF (choices (radices P)))
    ∧ (accumCountVal c i v (choices (radices P))
        = bucketVal c i v (choices (radices P)) % 65536
      ∧ accumCountVal c i v (choices (radices P))
        ≠ bucketVal c i v (choices (radices P)))
    ∧ (prob_obs P (fun θ => some (c θ)) obsSat
        = some (obsCount c obsSat (choices (radices P)) % 65536,
                obsMass P c obsSat (choices (radices P)))
      ∧ obsCount c obsSat (choices (radices P)) % 65536
        ≠ obsCount c obsSat (choices (radices P))) := by
  refine ⟨⟨?_, ?_⟩, ⟨accumCountVal_eq c i v _, ?_⟩, ⟨prob_obs_eq P c obsSat, ?_⟩⟩
  · rw [accumCountF_eq]
  · rw [accumCountF_eq]
    dsimp only
    have := Nat.mod_lt (bucketTrue c iF (choices (radices P))) (show 0 < 65536 by norm_num)
    omega
  · rw [accumCountVal_eq]
    have := Nat.mod_lt (bucketVal c i v (choices (radices P))) (show 0 < 65536 by norm_num)
    omega
  · have := Nat.mod_lt (obsCount c obsSat (choices (radices P))) (show 0 < 65536 by norm_num)
    omega

/-! ## Worker partitioning and merge (modelled from the spec) -/

/-- Modelled from the spec: element-wise merge of two partial CountStorage
bucket pairs; the buckets are uint16_t, so the sums wrap modulo 2^16. -/
def mergeCount (a b : ℕ × ℕ) : ℕ × ℕ :=
  (u16add a.1 b.1, u16add a.2 b.2)

/-- Modelled from the spec: a worker's ProbStorage accumulation over its
assigned sub-range of total choices: per-query weighted mass and total mass. -/
def accumProb (P : ModProgram) (c : List ℕ → ℕ) (sat : List ℕ → Bool)
    (l : List (List ℕ)) : ℚ × ℚ :=
  l.foldl (fun s θ =>
    (s.1 + weight (dims P) θ * c θ * (if sat θ then 1 else 0),
     s.2 + weight (dims P) θ * c θ)) (0, 0)

/-- Modelled from the spec: element-wise merge of two partial ProbStorage
accumulators (probability masses are additive). -/
def mergeProb (a b : ℚ × ℚ) : ℚ × ℚ :=
  (a.1 + b.1, a.2 + b.2)

/-- Exact pair of sums a ProbStorage accumulation computes over a range. -/
def probPair (P : ModProgram) (c : List ℕ → ℕ) (sat : List ℕ → Bool)
    (l : List (List ℕ)) : ℚ × ℚ :=
  ((l.map (fun θ => weight (dims P) θ * c θ * (if sat θ then 1 else 0))).sum,
   (l.map (fun θ => weight (dims P) θ * c θ)).sum)

theorem accumProb_from (P : ModProgram) (c : List ℕ → ℕ) (sat : List ℕ → Bool)
    (l : List (List ℕ)) : ∀ s : ℚ × ℚ,
    l.foldl (fun s θ =>
        (s.1 + weight (dims P) θ * c θ * (if sat θ then 1 else 0),
         s.2 + weight (dims P) θ * c θ)) s
      = (s.1 + (probPair P c sat l).1, s.2 + (probPair P c sat l).2) := by
  induction l with
  | nil =>
    intro s
    simp [probPair]
  | cons θ l ih =>
    intro s
    rw [List.foldl_cons, ih]
    simp only [probPair, List.map_cons, List.sum_cons]
    rw [add_assoc, add_assoc]

theorem accumProb_eq (P : ModProgram) (c : List ℕ → ℕ) (sat : List ℕ → Bool)
    (l : List (List ℕ)) :
    accumProb P c sat l = probPair P c sat l := by
  rw [accumProb, accumProb_from]
  simp

theorem bucketFalse_append (c : List ℕ → ℕ) (iF : ℕ) (l₁ l₂ : List (List ℕ)) :
    bucketFalse c iF (l₁ ++ l₂) = bucketFalse c iF l₁ + bucketFalse c iF l₂ := by
  simp [bucketFalse, List.filter_append, List.sum_append]

theorem bucketTrue_append (c : List ℕ → ℕ) (iF : ℕ) (l₁ l₂ : List (List ℕ)) :
    bucketTrue c iF (l₁ ++ l₂) = bucketTrue c iF l₁ + bucketTrue c iF l₂ := by
  simp [bucketTrue, List.filter_append, List.sum_append]

theorem mergeCount_fold (c : List ℕ → ℕ) (iF : ℕ) (parts : List (List (List ℕ))) :
    ∀ a : ℕ × ℕ, a.1 < 65536 → a.2 < 65536 →
      (parts.map (accumCountF c iF)).foldl mergeCount a
        = ((a.1 + bucketFalse c iF parts.flatten) % 65536,
           (a.2 + bucketTrue c iF parts.flatten) % 65536) := by
  induction parts with
  | nil =>
    intro a h1 h2
    simp only [List.map_nil, List.foldl_nil, List.flatten_nil]
    rw [bucketFalse, bucketTrue]
    simp [Nat.mod_eq_of_lt h1, Nat.mod_eq_of_lt h2]
  | cons p ps ih =>
    intro a h1 h2
    rw [List.map_cons, List.foldl_cons]
    have hm : mergeCount a (accumCountF c iF p)
        = ((a.1 + bucketFalse c iF p) % 65536, (a.2 + bucketTrue c iF p) % 65536) := by
      rw [accumCountF_eq, mergeCount]
      dsimp only
      rw [u16add, u16add, Nat.add_mod_mod, Nat.add_mod_mod]
    rw [hm, ih _ (Nat.mod_lt _ (by norm_num)) (Nat.mod_lt _ (by norm_num)),
      List.flatten_cons, bucketFalse_append, bucketTrue_append]
    rw [Nat.mod_add_mod, Nat.mod_add_mod, Nat.add_assoc, Nat.add_assoc]

theorem mergeProb_fold (P : ModProgram) (c : List ℕ → ℕ) (sat : List ℕ → Bool)
    (parts : List (List (List ℕ))) : ∀ s : ℚ × ℚ,
    (parts.map (accumProb P c sat)).foldl mergeProb s
      = (s.1 + (probPair P c sat parts.flatten).1,
         s.2 + (probPair P c sat parts.flatten).2) := by
  induction parts with
  | nil =>
    intro s
    simp [probPair]
  | cons p ps ih =>
    intro s
    rw [List.map_cons, List.foldl_cons, ih, accumProb_eq, mergeProb]
    simp only [probPair, List.flatten_cons, List.map_append, List.sum_append]
    rw [add_assoc, add_assoc]

/-- C4: splitting the total-choice sequence into any number of contiguous
sub-ranges, running the CountStorage and ProbStorage accumulators
independently on each part and merging the partial results by element-wise
sum yields exactly the aggregates of a single worker enumerating the full
range; the result depends only on the concatenation of the parts, hence is
independent of worker count and partition boundaries. -/
theorem c4_partition_invariance (P : ModProgram) (c : List ℕ → ℕ) (iF : ℕ)
    (sat : List ℕ → Bool) (parts : List (List (List ℕ)))
    (h : parts.flatten = choices (radices P)) :
    (parts.map (accumCountF c iF)).foldl mergeCount (0, 0)
      = accumCountF c iF (choices (radices P))
    ∧ (parts.map (accumProb P c sat)).foldl mergeProb (0, 0)
      = accumProb P c sat (choices (radices P)) := by
  constructor
  · rw [mergeCount_fold c iF parts (0, 0) (by norm_num) (by norm_num), h, accumCountF_eq]
    simp
  · rw [mergeProb_fold P c sat parts (0, 0), h, accumProb_eq]
    simp

theorem c4_partition_invariance_witness :
    ([[[0]], [[1]]] : List (List (List ℕ))).flatten = choices (radices ⟨[1/2], []⟩)
    ∧ (([[[0]], [[1]]] : List (List (List ℕ))).map
          (accumCountF (fun _ => 1) 0)).foldl mergeCount (0, 0)
        = accumCountF (fun _ => 1) 0 (choices (radices ⟨[1/2], []⟩))
    ∧ (([[[0]], [[1]]] : List (List (List ℕ))).map
          (accumProb ⟨[1/2], []⟩ (fun _ => 1) (fun _ => true))).foldl mergeProb (0, 0)
        = accumProb ⟨[1/2], []⟩ (fun _ => 1) (fun _ => true)
            (choices (radices ⟨[1/2], []⟩)) :=
  ⟨by decide,
   (c4_partition_invariance ⟨[1/2], []⟩ (fun _ => 1) 0 (fun _ => true)
     [[[0]], [[1]]] (by decide)).1,
   (c4_partition_invariance ⟨[1/2], []⟩ (fun _ => 1) 0 (fun _ => true)
     [[[0]], [[1]]] (by decide)).2⟩

/-! ## prob_obs_reuse aliasing (modelled from the spec: cexact.h lines 87-90) -/

/-- Modelled from the spec: element-wise sum of two prob_obs_storage_t cells,
restricted to the fields the contract concerns: the uint16 model counter N and
the observation probability o. -/
def addObsStorage (a b : ℕ × ℚ) : ℕ × ℚ :=
  (u16add a.1 b.1, a.2 + b.2)

/-- Modelled from the spec: the merge phase of prob_obs_reuse with a separate,
non-aliased ret cell: ret starts from worker 0's partial storage and the
remaining workers' partials are added element-wise. -/
def mergeLoopSeparate (Qp : List (ℕ × ℚ)) : ℕ × ℚ :=
  (List.range' 1 (Qp.length - 1)).foldl
    (fun r i => addObsStorage r (Qp.getD i (0, 0))) (Qp.getD 0 (0, 0))

/-- Modelled from the spec: the same merge phase with ret aliased to Q[0]
(or ret = NULL with the result read directly from Q[0]): the aggregate is
accumulated in place into slot 0 of the worker array while the remaining
slots are read. -/
def mergeLoopAliased (Qp : List (ℕ × ℚ)) : List (ℕ × ℚ) :=
  (List.range' 1 (Qp.length - 1)).foldl
    (fun A i => A.set 0 (addObsStorage (A.getD 0 (0, 0)) (A.getD i (0, 0)))) Qp

theorem mergeLoop_aux (idxs : List ℕ) (h : ∀ i ∈ idxs, i ≠ 0) :
    ∀ (l : List (ℕ × ℚ)) (r r' : ℕ × ℚ),
      idxs.foldl
          (fun A i => A.set 0 (addObsStorage (A.getD 0 (0, 0)) (A.getD i (0, 0)))) (r :: l)
        = (idxs.foldl (fun acc i => addObsStorage acc ((r' :: l).getD i (0, 0))) r) :: l := by
  induction idxs with
  | nil => intro l r r'; rfl
  | cons j rest ih =>
    intro l r r'
    have hj : j ≠ 0 := h j (List.mem_cons_self j rest)
    obtain ⟨k, rfl⟩ : ∃ k, j = k + 1 := ⟨j - 1, by omega⟩
    rw [List.foldl_cons, List.foldl_cons]
    have hset : (r :: l).set 0
        (addObsStorage ((r :: l).getD 0 (0, 0)) ((r :: l).getD (k + 1) (0, 0)))
        = addObsStorage r (l.getD k (0, 0)) :: l := by
      simp [List.getD_cons_succ, List.getD_cons_zero]
    rw [hset, ih (fun i hi => h i (List.mem_cons_of_mem _ hi)) l _ r']
    simp [List.getD_cons_succ]

/-- C8: running the merge of prob_obs_reuse with the output target aliased to
the first element of the caller-supplied worker storage array (or with ret =
NULL, reading the result from Q[0]) yields exactly the observation
probabilities of the run with a separate, non-aliased ret, and the partial
storages of the remaining workers are not corrupted by the in-place merge. -/
theorem c8_prob_obs_reuse_alias_safe (Qp : List (ℕ × ℚ)) :
    (mergeLoopAliased Qp).getD 0 (0, 0) = mergeLoopSeparate Qp
    ∧ (∀ i : ℕ, 1 ≤ i → (mergeLoopAliased Qp).getD i (0, 0) = Qp.getD i (0, 0)) := by
  cases Qp with
  | nil =>
    constructor
    · rfl
    · intro i _
      rfl
  | cons q l =>
    have hne : ∀ i ∈ List.range' 1 ((q :: l).length - 1), i ≠ 0 := by
      intro i hi
      have := List.mem_range'.mp hi
      omega
    have key := mergeLoop_aux (List.range' 1 ((q :: l).length - 1)) hne l q q
    constructor
    · rw [mergeLoopAliased, key]
      rfl
    · intro i hi
      obtain ⟨k, rfl⟩ : ∃ k, i = k + 1 := ⟨i - 1, by omega⟩
      rw [mergeLoopAliased, key]
      simp [List.getD_cons_succ]

theorem c8_prob_obs_reuse_alias_safe_witness :
    (1 : ℕ) ≤ 1
    ∧ (mergeLoopAliased [(1, 1/2), (2, 1/4)]).getD 1 (0, 0)
        = ([(1, 1/2), (2, 1/4)] : List (ℕ × ℚ)).getD 1 (0, 0) :=
  ⟨Nat.le_refl 1,
   (c8_prob_obs_reuse_alias_safe [(1, 1/2), (2, 1/4)]).2 1 (Nat.le_refl 1)⟩

/-! ## Marshaling layer, embedded from cprogram.c

The Python C API is modelled by a small value universe: attribute access on
the marshalled objects, PySequence_Fast, PyLong_AsUnsignedLong, PyLong_AsLong,
PyFloat_AsDouble and PyUnicode_AsUTF8 become total Lean functions returning
the value together with the Python error-indicator effect where the C checks
it (or fails to). -/

/-- Python values as seen by cprogram.c: lists/tuples, ints (also bools),
clingo Symbol objects carrying their _rep attribute, strings, floats
(as exact rationals), and anything else. -/
inductive PyObj where
  | seqObj (items : List PyObj)
  | intObj (n : Int)
  | symObj (rep : ℕ)
  | strObj (s : String)
  | fltObj (q : ℚ)
  | otherObj

/-- PySequence_Fast: succeeds exactly on lists and tuples, otherwise returns
NULL with a Python error set. -/
def pySequenceFast : PyObj → Option (List PyObj)
  | .seqObj l => some l
  | _ => none

/-- PyObject_GetAttrString(x, "_rep"): only Symbol objects carry _rep, an
unsigned integer. -/
def getRepAttr : PyObj → Option PyObj
  | .symObj n => some (.intObj n)
  | _ => none

/-- PyLong_AsUnsignedLong: on a nonnegative int returns its value (mod 2^64);
otherwise returns (unsigned long)-1 = 2^64 - 1 with a Python error set. -/
def pyLongAsUnsignedLong : PyObj → ℕ × Bool
  | .intObj n => if n < 0 then (2 ^ 64 - 1, true) else (n.toNat % 2 ^ 64, false)
  | _ => (2 ^ 64 - 1, true)

/-- PyLong_AsLong: on an int returns its value; otherwise returns -1 with a
Python error set. -/
def pyLongAsLong : PyObj → Int × Bool
  | .intObj n => (n, false)
  | _ => (-1, true)

/-- PyFloat_AsDouble: on a float (or int) returns its value; otherwise
returns -1 with a Python error set. -/
def pyFloatAsDouble : PyObj → ℚ × Bool
  | .fltObj q => (q, false)
  | .intObj n => ((n : ℚ), false)
  | _ => (-1, true)

/-- PyUnicode_AsUTF8: succeeds exactly on strings. -/
def pyUnicodeAsUTF8 : PyObj → Option String
  | .strObj s => some s
  | _ => none

/-- Marshalled Python ProbFact object: the attributes read by
from_python_prob_fact (cprogram.c lines 85-142). -/
structure PyProbFactObj where
  p : PyObj
  f : PyObj
  cl_f : PyObj

/-- Marshalled Python CredalFact object: the attributes read by
from_python_credal_fact (cprogram.c lines 144-214). -/
structure PyCredalFactObj where
  l : PyObj
  u : PyObj
  f : PyObj
  cl_f : PyObj

/-- The prob_fact_t record fields set by from_python_prob_fact. -/
structure ProbFactT where
  p : ℚ
  f : String
  cl_f : ℕ

/-- The credal_fact_t record fields set by from_python_credal_fact. -/
structure CredalFactT where
  l : ℚ
  u : ℚ
  f : String
  cl_f : ℕ

/-- Embedded from cprogram.c lines 85-142 (from_python_prob_fact), with the
attribute lookups modelled as present.  Returns the stored record on success
(`none` on the failure paths) together with the Python error indicator at
return.  The C checks each conversion with the pattern
`(x == -1) && !PyErr_Occurred()`, so a conversion that returns -1 with an
error already pending falls through. -/
def from_python_prob_fact (pf : PyProbFactObj) : Option ProbFactT × Bool :=
  let pp := pyFloatAsDouble pf.p
  if pp.1 = -1 ∧ ¬(pp.2 = true) then (none, true)
  else
    match pyUnicodeAsUTF8 pf.f with
    | none => (none, true)
    | some f =>
      match getRepAttr pf.cl_f with
      | none => (none, true)
      | some rep =>
        let pv := pyLongAsUnsignedLong rep
        if pv.1 = 2 ^ 64 - 1 ∧ ¬(pp.2 || pv.2) = true then (none, true)
        else (some ⟨pp.1, f, pv.1⟩, pp.2 || pv.2)

/-- Embedded from cprogram.c lines 144-214 (from_python_credal_fact).  The
code fetches py_cl_f_rep = getattr(cl_f, "_rep") and checks it, but then
calls PyLong_AsUnsignedLong on py_cl_f itself (line 194), not on the _rep it
just fetched; that call is embedded faithfully here. -/
def from_python_credal_fact (cf : PyCredalFactObj) : Option CredalFactT × Bool :=
  let pl := pyFloatAsDouble cf.l
  if pl.1 = -1 ∧ ¬(pl.2 = true) then (none, true)
  else
    let pu := pyFloatAsDouble cf.u
    if pu.1 = -1 ∧ ¬(pl.2 || pu.2) = true then (none, true)
    else
      match pyUnicodeAsUTF8 cf.f with
      | none => (none, true)
      | some f =>
        match getRepAttr cf.cl_f with
        | none => (none, true)
        | some _rep =>
          let pv := pyLongAsUnsignedLong cf.cl_f
          if pv.1 = 2 ^ 64 - 1 ∧ ¬(pl.2 || pu.2 || pv.2) = true then (none, true)
          else (some ⟨pl.1, pu.1, f, pv.1⟩, pl.2 || pu.2 || pv.2)

/-- C7 evaluated at the failing input: for a Symbol atom with _rep = 42,
from_python_prob_fact stores the solver symbol id 42 with no Python error,
while from_python_credal_fact stores (unsigned long)-1 = 2^64 - 1 and returns
success with a Python error pending, because cprogram.c line 194 passes the
Symbol object py_cl_f to PyLong_AsUnsignedLong instead of the py_cl_f_rep it
just fetched and checked; the two marshaling routines do not store the atom
handle identically. -/
theorem c7_symbol_handle_divergence :
    from_python_prob_fact ⟨.fltObj (1/2), .strObj "a", .symObj 42⟩
      = (some ⟨1/2, "a", 42⟩, false)
    ∧ from_python_credal_fact ⟨.fltObj 0, .fltObj 1, .strObj "a", .symObj 42⟩
      = (some ⟨0, 1, "a", 2 ^ 64 - 1⟩, true)
    ∧ (2 ^ 64 - 1 : ℕ) ≠ 42 := by
  have h42 : Int.toNat 42 % 18446744073709551616 = (42 : ℕ) := by decide
  refine ⟨?_, ?_, by norm_num⟩
  · norm_num [from_python_prob_fact, pyFloatAsDouble, pyUnicodeAsUTF8, getRepAttr,
      pyLongAsUnsignedLong, h42]
  · norm_num [from_python_credal_fact, pyFloatAsDouble, pyUnicodeAsUTF8, getRepAttr,
      pyLongAsUnsignedLong, h42]

/-- Marshalled Python Query object: the Q and E attributes as read by
from_python_query (none models a failed attribute lookup). -/
structure PyQueryObj where
  QAttr : Option PyObj
  EAttr : Option PyObj

/-- The query_t record of cprogram.h: symbol arrays Q/E, sign arrays Q_s/E_s,
and the element counts Q_n/E_n. -/
structure QueryT where
  Q : List ℕ
  Q_s : List Bool
  Q_n : ℕ
  E : List ℕ
  E_s : List Bool
  E_n : ℕ
deriving DecidableEq

/-- Outcome of the embedded from_python_query: normal return true (with the
resulting query_t and the Python error indicator), return false through the
cleanup path (the carried query_t is the caller's record as left at that
point, errSet the Python error indicator, leaked the heap arrays allocated in
the call and not freed — the cleanup path frees Q, E, Q_s and E_s, so it is
always empty), or an undefined-behavior dereference of a NULL sequence. -/
inductive CRes where
  | ok (q : QueryT) (errSet : Bool)
  | fail (q : QueryT) (errSet : Bool) (leaked : List String)
  | nullDeref (q : QueryT)
deriving DecidableEq

/-- Embedded from cprogram.c lines 250-264 and 266-280: one element of
Query.Q or Query.E is converted to (symbol id, sign, error-pending flag);
`none` on the paths that goto cleanup (element not a list/tuple, fewer than
2 items, item 0 without _rep).  The unchecked PyLong conversions feed the
error-pending flag. -/
def convLit (x : PyObj) : Option (ℕ × Bool × Bool) :=
  match pySequenceFast x with
  | none => none
  | some t =>
    if t.length < 2 then none
    else
      match getRepAttr (t.getD 0 .otherObj) with
      | none => none
      | some rep =>
        let pv := pyLongAsUnsignedLong rep
        let ps := pyLongAsLong (t.getD 1 .otherObj)
        some (pv.1, ps.1 != 0, pv.2 || ps.2)

/-- Embedded from cprogram.c: the extraction loop over a literal list; the
first failing element aborts with the cleanup path. -/
def convLits : List PyObj → Option (List ℕ × List Bool × Bool)
  | [] => some ([], [], false)
  | x :: xs =>
    match convLit x with
    | none => none
    | some (v, s, e) =>
      match convLits xs with
      | none => none
      | some (vs, ss, e2) => some (v :: vs, s :: ss, e || e2)

/-- Embedded from cprogram.c lines 216-303 (from_python_query).  `alloc k`
tells whether the k-th of the four mallocs (Q, E, Q_s, E_s, in order) fails.
Control flow is kept faithful to the C source: line 236 tests py_E (always
non-NULL there) instead of py_E_L, so when the E attribute is not a list or
tuple the NULL py_E_L is dereferenced at line 239 — after line 238 already
stored the Q size into q->Q_n; the sizes q->Q_n and q->E_n are written before
element extraction, while the pointer fields are written only after all
extraction succeeds; every failure path runs the cleanup that frees all four
arrays. -/
def from_python_query (alloc : ℕ → Bool) (py : PyQueryObj) (q0 : QueryT) : CRes :=
  match py.QAttr with
  | none => .fail q0 true []
  | some pyQ =>
    match py.EAttr with
    | none => .fail q0 true []
    | some pyE =>
      match pySequenceFast pyQ with
      | none => .fail q0 true []
      | some qL =>
        match pySequenceFast pyE with
        | none => .nullDeref { q0 with Q_n := qL.length }
        | some eL =>
          let q1 : QueryT := { q0 with Q_n := qL.length, E_n := eL.length }
          if alloc 0 then .fail q1 true []
          else if alloc 1 then .fail q1 true []
          else if alloc 2 then .fail q1 true []
          else if alloc 3 then .fail q1 true []
          else
            match convLits qL with
            | none => .fail q1 true []
            | some (Qv, Qs, e1) =>
              match convLits eL with
              | none => .fail q1 true []
              | some (Ev, Es, e2) =>
                .ok { q1 with Q := Qv, Q_s := Qs, E := Ev, E_s := Es } (e1 || e2)

theorem convLits_none_of_mem (l : List PyObj) (x : PyObj) (hx : x ∈ l)
    (hcl : convLit x = none) : convLits l = none := by
  induction l with
  | nil => simp at hx
  | cons y ys ih =>
    rcases List.mem_cons.mp hx with h1 | h1
    · subst h1
      rw [convLits, hcl]
    · rw [convLits]
      cases hy : convLit y with
      | none => rfl
      | some t =>
        obtain ⟨v, s, e⟩ := t
        rw [ih h1]

/-- C6 counterexample: at the concrete Query whose first Q element is a tuple
of size 1 (failing the size-2 check), from_python_query returns false through
cleanup — but the output query_t is not left unmodified: its size fields have
already been overwritten (Q_n: 7 to 1, E_n: 5 to 0) by cprogram.c lines
238-239, which run before element extraction. -/
theorem c6_output_modified_counterexample :
    from_python_query (fun _ => false)
        ⟨some (.seqObj [.seqObj [.symObj 3]]), some (.seqObj [])⟩
        ⟨[9], [true], 7, [], [], 5⟩
      = .fail ⟨[9], [true], 1, [], [], 0⟩ true []
    ∧ (1 : ℕ) ≠ 7 :=
  ⟨rfl, by decide⟩

/-- C6 amended: whenever from_python_query returns false — in particular when
an element of Query.Q or Query.E is not a sequence of at least 2 elements, or
when any of the four allocations fails — a Python error is set, every array
allocated during the call is freed, and the pointer fields of the output
query_t are unmodified; the size fields Q_n and E_n, however, are written
before element extraction and may be left modified on failure. -/
theorem c6_from_python_query_failure (alloc : ℕ → Bool) (py : PyQueryObj) (q0 : QueryT) :
    (∀ q e lk, from_python_query alloc py q0 = .fail q e lk →
        e = true ∧ lk = []
        ∧ q.Q = q0.Q ∧ q.Q_s = q0.Q_s ∧ q.E = q0.E ∧ q.E_s = q0.E_s)
    ∧ (∀ a b qL eL, py.QAttr = some a → py.EAttr = some b →
        pySequenceFast a = some qL → pySequenceFast b = some eL →
        ((∃ k, k < 4 ∧ alloc k = true)
          ∨ (∃ x ∈ qL ++ eL, pySequenceFast x = none
              ∨ ∃ t, pySequenceFast x = some t ∧ t.length < 2)) →
        ∃ q, from_python_query alloc py q0 = .fail q true []) := by
  constructor
  · intro q e lk hrun
    unfold from_python_query at hrun
    repeat' split at hrun
    all_goals first
      | (cases hrun; exact ⟨rfl, rfl, rfl, rfl, rfl, rfl⟩)
      | cases hrun
  · intro a b qL eL hQ hE hsq hse htrig
    simp only [from_python_query, hQ, hE, hsq, hse]
    have ladder : ∀ (X : CRes) (q1 : QueryT),
        ((∃ k, k < 4 ∧ alloc k = true) ∨ (∃ q, X = CRes.fail q true [])) →
        ∃ q, (if alloc 0 = true then CRes.fail q1 true []
              else if alloc 1 = true then CRes.fail q1 true []
              else if alloc 2 = true then CRes.fail q1 true []
              else if alloc 3 = true then CRes.fail q1 true []
              else X) = CRes.fail q true [] := by
      intro X q1 h
      by_cases h0 : alloc 0 = true
      · exact ⟨q1, by rw [if_pos h0]⟩
      by_cases h1 : alloc 1 = true
      · exact ⟨q1, by rw [if_neg h0, if_pos h1]⟩
      by_cases h2 : alloc 2 = true
      · exact ⟨q1, by rw [if_neg h0, if_neg h1, if_pos h2]⟩
      by_cases h3 : alloc 3 = true
      · exact ⟨q1, by rw [if_neg h0, if_neg h1, if_neg h2, if_pos h3]⟩
      rcases h with ⟨k, hk, ha⟩ | ⟨q, hq⟩
      · exfalso
        interval_cases k <;> simp_all
      · exact ⟨q, by rw [if_neg h0, if_neg h1, if_neg h2, if_neg h3]; exact hq⟩
    apply ladder
    rcases htrig with halloc | ⟨x, hx, hbad⟩
    · exact Or.inl halloc
    · refine Or.inr ?_
      have hcl : convLit x = none := by
        rcases hbad with hns | ⟨t, ht, hlen⟩
        · rw [convLit, hns]
        · rw [convLit, ht]
          simp [hlen]
      rcases List.mem_append.mp hx with hxl | hxr
      · rw [convLits_none_of_mem qL x hxl hcl]
        exact ⟨_, rfl⟩
      · cases hql : convLits qL with
        | none => exact ⟨_, rfl⟩
        | some triple =>
          obtain ⟨Qv, Qs, e1⟩ := triple
          rw [convLits_none_of_mem eL x hxr hcl]
          exact ⟨_, rfl⟩

theorem c6_from_python_query_failure_witness :
    ∃ q, from_python_query (fun _ => false)
        ⟨some (.seqObj [.seqObj [.symObj 3]]), some (.seqObj [])⟩
        ⟨[9], [true], 7, [], [], 5⟩ = .fail q true [] :=
  (c6_from_python_query_failure (fun _ => false)
      ⟨some (.seqObj [.seqObj [.symObj 3]]), some (.seqObj [])⟩
      ⟨[9], [true], 7, [], [], 5⟩).2
    (.seqObj [.seqObj [.symObj 3]]) (.seqObj []) [.seqObj [.symObj 3]] []
    rfl rfl rfl rfl
    (Or.inr ⟨.seqObj [.symObj 3], List.Mem.head _,
      Or.inr ⟨[.symObj 3], rfl, by norm_num⟩⟩)

/-- C9: at a Query whose E attribute is an int (neither list nor tuple),
from_python_query does not detect the failed sequence conversion of E:
cprogram.c line 236 tests py_E — which is non-NULL there — instead of the
NULL py_E_L, so execution reaches line 239 and dereferences the NULL sequence
pointer (after line 238 already overwrote q->Q_n); it does not return false
before the dereference. -/
theorem c9_e_null_check_missed :
    from_python_query (fun _ => false)
        ⟨some (.seqObj []), some (.intObj 0)⟩ ⟨[], [], 5, [], [], 5⟩
      = .nullDeref ⟨[], [], 0, [], [], 5⟩ :=
  rfl

theorem c10_uint16_wraparound_witness :
    65536 ≤ bucketTrue (fun θ => if θ.getD 0 0 = 1 then 65536 else 0) 0
        (choices (radices ⟨[1/2], []⟩))
    ∧ (accumCountF (fun θ => if θ.getD 0 0 = 1 then 65536 else 0) 0
          (choices (radices ⟨[1/2], []⟩))).2
        ≠ bucketTrue (fun θ => if θ.getD 0 0 = 1 then 65536 else 0) 0
          (choices (radices ⟨[1/2], []⟩)) :=
  ⟨by decide,
   ((c10_uint16_wraparound ⟨[1/2], []⟩ (fun θ => if θ.getD 0 0 = 1 then 65536 else 0)
      0 0 1 (fun _ => true) (by decide) (by decide) (by decide)).1).2⟩
